import Mathlib

/-!
Verification of the frame-rate reducer `_reduce_fps` from
`load_dataset_tfrecords.py` (M-PACT).

The video tensor is modelled as a `List α` of frames; the frame count is a
`Nat`.  TensorFlow's `tf.ceil(tf.divide(n, 6))` on a non-negative integer
frame count is the exact ceiling `(n + 5) / 6` (the float64 quotient of an
int32 by 6 is within 2⁻²⁴ of the exact rational value, far less than the
1/6 gap separating a non-integer quotient from the nearest integer, so the
ceiling is computed exactly).  `tf.slice` and `tf.gather` raise runtime
errors on out-of-range sizes/indices, which we model with `Option`.
`tf.reshape` calls in the source only reassert shapes and are no-ops on
the list model.
-/

/-- Model of `tf.slice(l, [start], [size])`: errors (returns `none`) when the
requested window does not fit inside the tensor. -/
def tfSlice {α : Type _} (l : List α) (start size : Nat) : Option (List α) :=
  if start + size ≤ l.length then some ((l.drop start).take size) else none

/-- Model of `tf.gather(v, idxs)` along axis 0: errors (returns `none`) when
any index is out of range. -/
def tfGather {α : Type _} (v : List α) : List Nat → Option (List α)
  | [] => some []
  | i :: is =>
    match v[i]?, tfGather v is with
    | some a, some rest => some (a :: rest)
    | _, _ => none

/-- Line 130 of the source:
`remove_count = tf.cast(tf.ceil(tf.divide(frame_count, 6)), tf.int32)`,
the ceiling of `frame_count / 6`. -/
def remove_count (frame_count : Nat) : Nat := (frame_count + 5) / 6

/-- Lines 132-140 of the source: the candidate keep-index tensor.
`indices = tf.tile([0,1,2,3,4], [rc])` reshaped to a flat vector is `rc`
concatenated copies of `[0,1,2,3,4]`; `additions` (a `range rc` stacked five
times, transposed, flattened and multiplied by 6) is each period index
repeated five times, times 6; the final `tf.add` sums them elementwise. -/
def candidate_indices (rc : Nat) : List Nat :=
  List.zipWith (fun a b => a + b)
    ((List.replicate rc ([0, 1, 2, 3, 4] : List Nat)).flatten)
    (((List.range rc).flatMap (fun p => List.replicate 5 p)).map (fun a => a * 6))

/-- Lines 142-144 of the source: the conditional reassignment of
`remove_count` — kept as-is when `frame_count == remove_count * 6`,
decremented otherwise. -/
def dropped_count (frame_count : Nat) : Nat :=
  if frame_count = remove_count frame_count * 6 then remove_count frame_count
  else remove_count frame_count - 1

/-- Line 145 of the source: `output_frames = tf.subtract(frame_count, remove_count)`
with the reassigned `remove_count`. -/
def output_count (frame_count : Nat) : Nat := frame_count - dropped_count frame_count

/-- The keep-index list actually produced by line 147
(`tf.slice(indices, [0], [output_frames])`) whenever the slice is in range. -/
def keep_list (frame_count : Nat) : List Nat :=
  (candidate_indices (remove_count frame_count)).take (output_count frame_count)

/-- Lines 119-150 of the source: `_reduce_fps(video, frame_count)` returning
`(output, output_frames, indices)`.  `none` models a TensorFlow runtime
error from `tf.slice` or `tf.gather`. -/
def reduce_fps {α : Type _} (video : List α) (frame_count : Nat) :
    Option (List α × Nat × List Nat) :=
  match tfSlice (candidate_indices (remove_count frame_count)) 0 (output_count frame_count) with
  | none => none
  | some indices_to_keep =>
    match tfGather video indices_to_keep with
    | none => none
    | some output => some (output, output_count frame_count, indices_to_keep)

/-- Spec §4 step 4, written from the spec's words for the refinement claim:
"if `N` is exactly divisible by 6, dropped_count = `period_count`; otherwise
dropped_count = `period_count − 1`", with `period_count = ceil(N / 6)`. -/
def dropped_count_spec (n : Nat) : Nat :=
  if 6 ∣ n then (n + 5) / 6 else (n + 5) / 6 - 1

/-- Spec §8, written from the spec's words: the expected keep-index sequence
for a multiple of 6 — "concatenation of `{0,1,2,3,4}+6p` for p in
`0..N/6-1`". -/
def keep_spec (periods : Nat) : List Nat :=
  (List.range periods).flatMap
    (fun p => [6 * p, 6 * p + 1, 6 * p + 2, 6 * p + 3, 6 * p + 4])

/-! ### Structure of the candidate index list -/

theorem tile_length (n : Nat) :
    ((List.replicate n ([0, 1, 2, 3, 4] : List Nat)).flatten).length = 5 * n := by
  induction n with
  | zero => rfl
  | succ m ih =>
    rw [List.replicate_succ, List.flatten_cons, List.length_append, ih]
    simp only [List.length_cons, List.length_nil]
    omega

theorem additions_length (n : Nat) :
    ((((List.range n).flatMap (fun p => List.replicate 5 p)).map (fun a => a * 6))).length
      = 5 * n := by
  induction n with
  | zero => rfl
  | succ m ih =>
    rw [List.range_succ, List.flatMap_append, List.map_append, List.length_append, ih]
    simp
    omega

theorem candidate_indices_succ (n : Nat) :
    candidate_indices (n + 1) =
      candidate_indices n ++ [6 * n, 6 * n + 1, 6 * n + 2, 6 * n + 3, 6 * n + 4] := by
  unfold candidate_indices
  rw [List.replicate_succ', List.flatten_append, List.range_succ, List.flatMap_append,
    List.map_append,
    List.zipWith_append _ _ _ _ _ (by rw [tile_length, additions_length])]
  congr 1
  simp [List.replicate_succ, List.replicate]
  omega

theorem keep_spec_succ (n : Nat) :
    keep_spec (n + 1) =
      keep_spec n ++ [6 * n, 6 * n + 1, 6 * n + 2, 6 * n + 3, 6 * n + 4] := by
  unfold keep_spec
  rw [List.range_succ, List.flatMap_append]
  simp

theorem candidate_indices_eq_keep_spec (n : Nat) : candidate_indices n = keep_spec n := by
  induction n with
  | zero => rfl
  | succ m ih => rw [candidate_indices_succ, keep_spec_succ, ih]

theorem keep_spec_length (n : Nat) : (keep_spec n).length = 5 * n := by
  induction n with
  | zero => rfl
  | succ m ih =>
    rw [keep_spec_succ, List.length_append, ih]
    simp
    omega

theorem keep_spec_getElem? (n k : Nat) :
    (keep_spec n)[k]? = if k < 5 * n then some (6 * (k / 5) + k % 5) else none := by
  induction n with
  | zero => simp [keep_spec]
  | succ m ih =>
    rw [keep_spec_succ]
    by_cases h : k < 5 * m
    · rw [List.getElem?_append_left (by rw [keep_spec_length]; exact h), ih,
        if_pos h, if_pos (by omega)]
    · rw [List.getElem?_append_right (by rw [keep_spec_length]; omega), keep_spec_length]
      by_cases h2 : k < 5 * (m + 1)
      · rw [if_pos h2]
        have h3 : k - 5 * m = 0 ∨ k - 5 * m = 1 ∨ k - 5 * m = 2 ∨ k - 5 * m = 3 ∨
            k - 5 * m = 4 := by omega
        rcases h3 with h3 | h3 | h3 | h3 | h3 <;> rw [h3] <;> simp <;> omega
      · rw [if_neg h2]
        apply List.getElem?_eq_none
        simp
        omega

theorem keep_spec_pairwise (n : Nat) : (keep_spec n).Pairwise (· < ·) := by
  rw [List.pairwise_iff_getElem]
  intro i j hi hj hij
  have h1 := keep_spec_getElem? n i
  have h2 := keep_spec_getElem? n j
  rw [keep_spec_length] at hi hj
  rw [if_pos hi, List.getElem?_eq_getElem (by rw [keep_spec_length]; exact hi)] at h1
  rw [if_pos hj, List.getElem?_eq_getElem (by rw [keep_spec_length]; exact hj)] at h2
  have e1 : (keep_spec n)[i] = 6 * (i / 5) + i % 5 := by exact Option.some.inj h1
  have e2 : (keep_spec n)[j] = 6 * (j / 5) + j % 5 := by exact Option.some.inj h2
  rw [e1, e2]
  omega

/-! ### Arithmetic of the dropped-frame count -/

theorem dropped_count_eq_div (n : Nat) : dropped_count n = n / 6 := by
  unfold dropped_count remove_count
  split <;> omega

theorem output_count_eq (n : Nat) : output_count n = n - n / 6 := by
  unfold output_count
  rw [dropped_count_eq_div]

theorem output_count_le_candidate (n : Nat) : output_count n ≤ 5 * remove_count n := by
  rw [output_count_eq]
  unfold remove_count
  omega

/-! ### The sliced keep-index list -/

theorem keep_list_getElem? (n k : Nat) :
    (keep_list n)[k]? = if k < output_count n then some (6 * (k / 5) + k % 5) else none := by
  unfold keep_list
  rw [candidate_indices_eq_keep_spec, List.getElem?_take, keep_spec_getElem?]
  have hb := output_count_le_candidate n
  split
  · rw [if_pos (by omega)]
  · rfl

theorem keep_list_length (n : Nat) : (keep_list n).length = output_count n := by
  unfold keep_list
  rw [List.length_take, candidate_indices_eq_keep_spec, keep_spec_length]
  have hb := output_count_le_candidate n
  omega

theorem keep_list_pairwise (n : Nat) : (keep_list n).Pairwise (· < ·) := by
  unfold keep_list
  rw [candidate_indices_eq_keep_spec]
  exact (keep_spec_pairwise _).sublist (List.take_sublist _ _)

theorem keep_list_mem_lt (n : Nat) : ∀ x ∈ keep_list n, x < n := by
  intro x hx
  rcases List.mem_iff_getElem?.1 hx with ⟨k, hk⟩
  rw [keep_list_getElem? n k] at hk
  by_cases h : k < output_count n
  · rw [if_pos h] at hk
    have hv : x = 6 * (k / 5) + k % 5 := (Option.some.inj hk).symm
    rw [output_count_eq] at h
    omega
  · rw [if_neg h] at hk
    exact absurd hk (by simp)

/-! ### Gather lemmas -/

theorem tfGather_eq_filterMap {α : Type _} (v : List α) (idxs : List Nat)
    (h : ∀ i ∈ idxs, i < v.length) :
    tfGather v idxs = some (idxs.filterMap (fun i => v[i]?)) := by
  induction idxs with
  | nil => rfl
  | cons i is ih =>
    have hi : i < v.length := h i (List.mem_cons_self i is)
    have hv : v[i]? = some v[i] := List.getElem?_eq_getElem hi
    have hrest := ih (fun j hj => h j (List.mem_cons_of_mem i hj))
    simp only [tfGather, hv, hrest, List.filterMap_cons]

theorem filterMap_getElem?_length {α : Type _} (v : List α) (idxs : List Nat)
    (h : ∀ i ∈ idxs, i < v.length) :
    (idxs.filterMap (fun i => v[i]?)).length = idxs.length := by
  induction idxs with
  | nil => rfl
  | cons i is ih =>
    have hi : i < v.length := h i (List.mem_cons_self i is)
    have hv : v[i]? = some v[i] := List.getElem?_eq_getElem hi
    rw [List.filterMap_cons, hv]
    simp only [List.length_cons]
    rw [ih (fun j hj => h j (List.mem_cons_of_mem i hj))]

theorem filterMap_getElem?_getElem? {α : Type _} (v : List α) (idxs : List Nat)
    (h : ∀ i ∈ idxs, i < v.length) (k : Nat) :
    (idxs.filterMap (fun i => v[i]?))[k]? = (idxs[k]?).bind (fun j => v[j]?) := by
  induction idxs generalizing k with
  | nil => simp
  | cons i is ih =>
    have hi : i < v.length := h i (List.mem_cons_self i is)
    have hv : v[i]? = some v[i] := List.getElem?_eq_getElem hi
    rw [List.filterMap_cons, hv]
    cases k with
    | zero => simp [hv]
    | succ m =>
      simp only [List.getElem?_cons_succ]
      exact ih (fun j hj => h j (List.mem_cons_of_mem i hj)) m

theorem filterMap_range_getElem? {α : Type _} (l : List α) :
    (List.range l.length).filterMap (fun i => l[i]?) = l := by
  induction l with
  | nil => rfl
  | cons a t ih =>
    rw [List.length_cons, List.range_succ_eq_map, List.filterMap_cons]
    simp only [List.getElem?_cons_zero, List.filterMap_map]
    have he : (fun i => (a :: t)[i]?) ∘ Nat.succ = fun i => t[i]? := by
      funext i
      simp
    rw [he, ih]

/-! ### The main equation for `reduce_fps` -/

theorem tfSlice_keep (n : Nat) :
    tfSlice (candidate_indices (remove_count n)) 0 (output_count n)
      = some (keep_list n) := by
  unfold tfSlice keep_list
  rw [if_pos]
  · rw [List.drop_zero]
  · rw [candidate_indices_eq_keep_spec, keep_spec_length]
    have hb := output_count_le_candidate n
    omega

theorem reduce_fps_eq {α : Type _} (frames : List α) (n : Nat) (h : frames.length = n) :
    reduce_fps frames n
      = some ((keep_list n).filterMap (fun i => frames[i]?), output_count n, keep_list n) := by
  have hg := tfGather_eq_filterMap frames (keep_list n)
    (fun i hi => by rw [h]; exact keep_list_mem_lt n i hi)
  simp only [reduce_fps, tfSlice_keep, hg]

/-! ### The claims -/

/-- C1: for every frame count N that is a positive exact multiple of 6,
`_reduce_fps` returns `output_count = N - N/6` and `keep_indices` equal to the
concatenation of `{0,1,2,3,4}+6p` for `p` in `0 .. N/6 - 1`. -/
theorem reduce_fps_multiple_of_six {α : Type _} (frames : List α) (n : Nat)
    (h0 : 0 < n) (hd : 6 ∣ n) (hl : frames.length = n) :
    reduce_fps frames n
      = some ((keep_spec (n / 6)).filterMap (fun i => frames[i]?), n - n / 6,
          keep_spec (n / 6)) := by
  have h1 : remove_count n = n / 6 := by
    unfold remove_count
    omega
  have h2 : output_count n = 5 * (n / 6) := by
    rw [output_count_eq]
    omega
  have hk : keep_list n = keep_spec (n / 6) := by
    unfold keep_list
    rw [candidate_indices_eq_keep_spec, h1, h2, ← keep_spec_length, List.take_length]
  rw [reduce_fps_eq frames n hl, hk, output_count_eq]

/-- Witness for C1 at N = 12: output count 10 and keep indices
`[0,1,2,3,4,6,7,8,9,10]`. -/
theorem reduce_fps_multiple_of_six_witness :
    (reduce_fps (List.range 12) 12
        = some ((keep_spec (12 / 6)).filterMap (fun i => (List.range 12)[i]?),
            12 - 12 / 6, keep_spec (12 / 6))) ∧
      keep_spec (12 / 6) = [0, 1, 2, 3, 4, 6, 7, 8, 9, 10] ∧ 12 - 12 / 6 = 10 :=
  ⟨reduce_fps_multiple_of_six (List.range 12) 12 (by decide) (by decide) (by decide),
    by decide, by decide⟩

/-- C2: for every frame count N > 0 that is not a multiple of 6, `_reduce_fps`
returns `output_count = N - (ceil(N/6) - 1)` (with `ceil(N/6) = (N+5)/6`). -/
theorem reduce_fps_not_multiple_of_six {α : Type _} (frames : List α) (n : Nat)
    (h0 : 0 < n) (hd : ¬ 6 ∣ n) (hl : frames.length = n) :
    reduce_fps frames n
      = some ((keep_list n).filterMap (fun i => frames[i]?), n - ((n + 5) / 6 - 1),
          keep_list n) := by
  have hc : output_count n = n - ((n + 5) / 6 - 1) := by
    rw [output_count_eq]
    omega
  rw [reduce_fps_eq frames n hl, hc]

/-- Witness for C2 at N = 10: output count 9 and keep indices
`[0,1,2,3,4,6,7,8,9]`. -/
theorem reduce_fps_not_multiple_of_six_witness :
    (reduce_fps (List.range 10) 10
        = some ((keep_list 10).filterMap (fun i => (List.range 10)[i]?),
            10 - ((10 + 5) / 6 - 1), keep_list 10)) ∧
      keep_list 10 = [0, 1, 2, 3, 4, 6, 7, 8, 9] ∧ 10 - ((10 + 5) / 6 - 1) = 9 :=
  ⟨reduce_fps_not_multiple_of_six (List.range 10) 10 (by decide) (by decide) (by decide),
    by decide, by decide⟩

/-- C3: for every frame count N > 0, the keep-index sequence returned by
`_reduce_fps` is strictly increasing with every value in `[0, N)`, and the
final gather over a frame sequence of length N succeeds (never reads at or
beyond the end). -/
theorem reduce_fps_keep_sorted_bounded {α : Type _} (frames : List α) (n : Nat)
    (_h0 : 0 < n) (hl : frames.length = n) :
    (reduce_fps frames n).map (fun r => r.2.2) = some (keep_list n) ∧
      (keep_list n).Pairwise (· < ·) ∧
      (∀ i ∈ keep_list n, i < n) ∧
      (tfGather frames (keep_list n)).isSome := by
  refine ⟨?_, keep_list_pairwise n, keep_list_mem_lt n, ?_⟩
  · rw [reduce_fps_eq frames n hl]
    rfl
  · rw [tfGather_eq_filterMap frames (keep_list n)
      (fun i hi => by rw [hl]; exact keep_list_mem_lt n i hi)]
    rfl

/-- Witness for C3 at N = 6. -/
theorem reduce_fps_keep_sorted_bounded_witness :
    (reduce_fps (List.range 6) 6).map (fun r => r.2.2) = some (keep_list 6) ∧
      (keep_list 6).Pairwise (· < ·) ∧
      (∀ i ∈ keep_list 6, i < 6) ∧
      (tfGather (List.range 6) (keep_list 6)).isSome :=
  reduce_fps_keep_sorted_bounded (List.range 6) 6 (by decide) (by decide)

/-- C4: for every input frame sequence with its frame count N, `_reduce_fps`
returns a triple whose count equals the length of the keep-index list and
whose output frames are exactly the input restricted to the keep indices in
order (stated positionally via `getElem?`). -/
theorem reduce_fps_output_is_restriction {α : Type _} (frames : List α) (n : Nat)
    (hl : frames.length = n) :
    reduce_fps frames n
        = some ((keep_list n).filterMap (fun i => frames[i]?), (keep_list n).length,
            keep_list n) ∧
      ∀ k : Nat, ((keep_list n).filterMap (fun i => frames[i]?))[k]?
          = ((keep_list n)[k]?).bind (fun j => frames[j]?) := by
  have hb : ∀ i ∈ keep_list n, i < frames.length :=
    fun i hi => by rw [hl]; exact keep_list_mem_lt n i hi
  constructor
  · rw [keep_list_length n]
    exact reduce_fps_eq frames n hl
  · exact fun k => filterMap_getElem?_getElem? frames (keep_list n) hb k

/-- Witness for C4 at N = 7. -/
theorem reduce_fps_output_is_restriction_witness :
    (reduce_fps (List.range 7) 7
        = some ((keep_list 7).filterMap (fun i => (List.range 7)[i]?),
            (keep_list 7).length, keep_list 7)) ∧
      ∀ k : Nat, ((keep_list 7).filterMap (fun i => (List.range 7)[i]?))[k]?
          = ((keep_list 7)[k]?).bind (fun j => (List.range 7)[j]?) :=
  reduce_fps_output_is_restriction (List.range 7) 7 (by decide)

/-- C5: the code's ceiling-based equality test `frame_count == remove_count * 6`
(with `remove_count = ceil(N/6)`) holds exactly when 6 divides N, so the code's
`dropped_count` coincides with the spec's divisibility case split
(`dropped_count_spec`). -/
theorem dropped_count_refines_spec (n : Nat) :
    (n = remove_count n * 6 ↔ 6 ∣ n) ∧ dropped_count n = dropped_count_spec n := by
  constructor
  · unfold remove_count
    omega
  · unfold dropped_count dropped_count_spec remove_count
    by_cases h : 6 ∣ n
    · rw [if_pos h, if_pos (by omega)]
    · rw [if_neg h, if_neg (by omega)]

/-- C6: the keep-index sequence and the output count produced by `_reduce_fps`
depend only on the frame count, not on the frame contents (stated across two
frame sequences of arbitrary, even different, element types).  Determinism and
absence of mutation of the input hold by construction in this embedding:
`reduce_fps` is a Lean function of `(video, frame_count)` alone. -/
theorem reduce_fps_keep_depends_only_on_count {α β : Type _}
    (frames1 : List α) (frames2 : List β) (n : Nat)
    (h1 : frames1.length = n) (h2 : frames2.length = n) :
    (reduce_fps frames1 n).map (fun r => (r.2.1, r.2.2))
      = (reduce_fps frames2 n).map (fun r => (r.2.1, r.2.2)) := by
  rw [reduce_fps_eq frames1 n h1, reduce_fps_eq frames2 n h2]
  rfl

/-- Witness for C6 at N = 12 over two different element types. -/
theorem reduce_fps_keep_depends_only_on_count_witness :
    (reduce_fps (List.range 12) 12).map (fun r => (r.2.1, r.2.2))
      = (reduce_fps (List.replicate 12 true) 12).map (fun r => (r.2.1, r.2.2)) :=
  reduce_fps_keep_depends_only_on_count (List.range 12) (List.replicate 12 true) 12
    (by decide) (by decide)

/-- C7: `_reduce_fps` is not idempotent: there is an input on which a second
application changes the result and strictly reduces the frame count again
(witnessed at N = 12: the first application yields 10 frames, the second 9). -/
theorem reduce_fps_not_idempotent :
    ∃ (frames : List Nat) (r1 r2 : List Nat × Nat × List Nat),
      reduce_fps frames frames.length = some r1 ∧
      reduce_fps r1.1 r1.2.1 = some r2 ∧
      r2 ≠ r1 ∧ r2.2.1 < r1.2.1 := by
  refine ⟨List.range 12,
    ([0, 1, 2, 3, 4, 6, 7, 8, 9, 10], 10, [0, 1, 2, 3, 4, 6, 7, 8, 9, 10]),
    ([0, 1, 2, 3, 4, 7, 8, 9, 10], 9, [0, 1, 2, 3, 4, 6, 7, 8, 9]), ?_, ?_, ?_, ?_⟩
  · decide
  · decide
  · decide
  · decide

/-- C8: for every frame count N with 0 < N < 6, `_reduce_fps` drops nothing:
`dropped_count = 0`, the output count is N, the keep indices are
`[0, 1, ..., N-1]`, and the output frames equal the input frames. -/
theorem reduce_fps_small_passthrough {α : Type _} (frames : List α) (n : Nat)
    (h1 : 0 < n) (h2 : n < 6) (hl : frames.length = n) :
    dropped_count n = 0 ∧ reduce_fps frames n = some (frames, n, List.range n) := by
  have hd : dropped_count n = 0 := by
    rw [dropped_count_eq_div]
    omega
  have ho : output_count n = n := by
    rw [output_count_eq]
    omega
  have hk : keep_list n = List.range n := by
    unfold keep_list
    rw [candidate_indices_eq_keep_spec, ho]
    have hr : remove_count n = 1 := by
      unfold remove_count
      omega
    rw [hr]
    interval_cases n <;> decide
  refine ⟨hd, ?_⟩
  rw [reduce_fps_eq frames n hl, hk, ho]
  have hf : (List.range n).filterMap (fun i => frames[i]?) = frames := by
    rw [← hl]
    exact filterMap_range_getElem? frames
  rw [hf]

/-- Witness for C8 at N = 5 on a concrete non-trivial frame list. -/
theorem reduce_fps_small_passthrough_witness :
    dropped_count 5 = 0 ∧
      reduce_fps ([10, 20, 30, 40, 50] : List Nat) 5
        = some ([10, 20, 30, 40, 50], 5, List.range 5) :=
  reduce_fps_small_passthrough ([10, 20, 30, 40, 50] : List Nat) 5
    (by decide) (by decide) (by decide)

/-- C9: whenever `_reduce_fps` returns a result, its output frame count is at
most the input frame count N. -/
theorem reduce_fps_count_le {α : Type _} (frames : List α) (n : Nat)
    (r : List α × Nat × List Nat) (hr : reduce_fps frames n = some r) :
    r.2.1 ≤ n := by
  unfold reduce_fps at hr
  cases h1 : tfSlice (candidate_indices (remove_count n)) 0 (output_count n) with
  | none =>
    simp only [h1] at hr
    exact Option.noConfusion hr
  | some itk =>
    simp only [h1] at hr
    cases h2 : tfGather frames itk with
    | none =>
      simp only [h2] at hr
      exact Option.noConfusion hr
    | some out =>
      simp only [h2, Option.some.injEq] at hr
      subst hr
      show output_count n ≤ n
      rw [output_count_eq]
      omega

/-- Witness for C9 at N = 6. -/
theorem reduce_fps_count_le_witness :
    ((([0, 1, 2, 3, 4] : List Nat), 5, ([0, 1, 2, 3, 4] : List Nat)) :
        List Nat × Nat × List Nat).2.1 ≤ 6 :=
  reduce_fps_count_le (List.range 6) 6
    (([0, 1, 2, 3, 4], 5, [0, 1, 2, 3, 4])) (by decide)

/-- C10: at frame count N = 0 the code is well defined: `remove_count 0 = 0`,
the equality test `0 == 0 * 6` holds so `dropped_count 0 = 0`, and
`_reduce_fps` returns an empty frame sequence, count 0 and an empty keep-index
sequence, for any input frame list. -/
theorem reduce_fps_zero {α : Type _} (frames : List α) :
    remove_count 0 = 0 ∧ (0 : Nat) = remove_count 0 * 6 ∧ dropped_count 0 = 0 ∧
      reduce_fps frames 0 = some ([], 0, []) :=
  ⟨rfl, rfl, rfl, rfl⟩
